import Mathlib

/-!
Shallow embedding of the process-lifecycle-and-dynamic-proxy subsystem of
`server.js` (a Node/Express backend that runs Flutter web previews as child
processes).  JavaScript strings are modelled as `List Char`, the `Map`
`runningProjects` as an association list with `Map` semantics, and the
Express router stack (`app._router.stack`) as a list of
(path-prefix, router-handle) layers.  Effectful operations (`process.kill`,
port binding) are parameterized by oracles describing their outcome.
-/

/-- Model of a JavaScript string: a list of characters. -/
abbrev Str := List Char

/-- Model of a subset of JavaScript string whitespace, enough for `trim`. -/
def jsWhitespace (c : Char) : Bool := c = ' ' || c = '\t' || c = '\n' || c = '\r'

/-- Model of `String.prototype.trim`: strip whitespace from both ends. -/
def trim (s : Str) : Str :=
  ((s.dropWhile jsWhitespace).reverse.dropWhile jsWhitespace).reverse

/-- Decidable test that `needle` is a leading segment of the second list,
modelling the positional comparison done by `String.prototype.replace` and
`String.prototype.includes`. -/
def strPre : Str → Str → Bool
  | [], _ => true
  | _ :: _, [] => false
  | c :: n, d :: h => decide (c = d) && strPre n h

/-- Model of `String.prototype.includes`: `needle` occurs contiguously
somewhere in the haystack. -/
def containsSub (needle : Str) : Str → Bool
  | [] => needle.isEmpty
  | c :: rest => strPre needle (c :: rest) || containsSub needle rest

/-- Model of `String.prototype.replace` with a plain-string pattern: replace
the leftmost occurrence of `needle` with `repl`; if `needle` does not occur,
return the haystack unchanged (server.js:356 uses it with an empty `repl`). -/
def replaceFirst (needle repl : Str) : Str → Str
  | [] => if strPre needle [] then repl else []
  | c :: rest =>
      if strPre needle (c :: rest) then repl ++ (c :: rest).drop needle.length
      else c :: replaceFirst needle repl rest

/-- Lifecycle status of an instance: `starting`, `running` or `error`
(server.js:375, 396, 407). -/
inductive Status where
  | starting
  | running
  | error
deriving DecidableEq

/-- One entry of the `runningProjects` map (server.js:369-376): pid and port
of the child process, the opaque router handle stored for teardown, the
keepalive and creation timestamps (milliseconds), the lifecycle status and
the optional last stderr text. -/
structure ProcessInfo where
  pid : Nat
  port : Nat
  router : Nat
  lastPing : Nat
  startTime : Nat
  status : Status
  error : Option Str
deriving DecidableEq

/-- Lookup in the association-list model of a JavaScript `Map`
(`Map.prototype.get`); returns the first binding of the key. -/
def mapGet {α : Type} : List (Str × α) → Str → Option α
  | [], _ => none
  | (k, v) :: rest, key => if k = key then some v else mapGet rest key

/-- Model of `Map.prototype.set`: replace the binding of the key in place if
present, otherwise append a new binding (preserving insertion order). -/
def mapSet {α : Type} : List (Str × α) → Str → α → List (Str × α)
  | [], key, v => [(key, v)]
  | (k, w) :: rest, key, v =>
      if k = key then (key, v) :: rest else (k, w) :: mapSet rest key v

/-- Model of `Map.prototype.delete`: remove the bindings of the key. -/
def mapDelete {α : Type} : List (Str × α) → Str → List (Str × α)
  | [], _ => []
  | (k, v) :: rest, key =>
      if k = key then mapDelete rest key else (k, v) :: mapDelete rest key

/-- Model of `Map.prototype.has`. -/
def mapHas {α : Type} (m : List (Str × α)) (key : Str) : Bool :=
  (mapGet m key).isSome

/-- Keys of the association list, in order. -/
def keys {α : Type} (m : List (Str × α)) : List Str := m.map Prod.fst

/-- Well-formedness of the map model: no key is bound twice.  A JavaScript
`Map` guarantees this by construction. -/
def NodupKeys {α : Type} (m : List (Str × α)) : Prop := (keys m).Nodup

/-- Number of bindings of a key in the registry. -/
def countKey {α : Type} (m : List (Str × α)) (k : Str) : Nat :=
  (m.filter (fun e => decide (e.1 = k))).length

/-- Global mutable state of the server: the `runningProjects` map
(server.js:14) and the Express router stack that per-project routers are
mounted on (server.js:360) and filtered out of (server.js:163), each layer
modelled as its mount path prefix paired with its router handle. -/
structure ServerState where
  runningProjects : List (Str × ProcessInfo)
  routerStack : List (Str × Nat)
deriving DecidableEq

/-- Observable side effects of the supervisor paths, used to state that the
early-failure returns of the `/run` handler perform none. -/
inductive Effect where
  | signalAttempt (pid : Nat)
  | portAllocated (port : Nat)
  | spawned (pid : Nat)
deriving DecidableEq

/-- Result of `stopProject`: the boolean it returns, the state afterwards,
and the effects performed. -/
structure StopResult where
  stopped : Bool
  state : ServerState
  effects : List Effect
deriving DecidableEq

/-- Model of `stopProject` (server.js:157-172).  If the name is registered it
attempts `process.kill(pid, SIGTERM)`; the oracle `killOk` tells whether the
kill succeeds or throws (process already gone).  On success the
project-specific router is filtered out of the stack by handle identity and
the registry entry is deleted, returning `true`.  If the kill throws, the
`catch` block logs and returns `false`: the filter and delete statements,
being placed after the kill inside the `try`, are not executed, so the entry
and the routes remain.  In either case the exception is swallowed. -/
def stopProject (killOk : Nat → Bool) (projectName : Str) (st : ServerState) : StopResult :=
  match mapGet st.runningProjects projectName with
  | some processInfo =>
      if killOk processInfo.pid then
        { stopped := true
          state := { runningProjects := mapDelete st.runningProjects projectName
                     routerStack := st.routerStack.filter
                       (fun layer => decide (layer.2 ≠ processInfo.router)) }
          effects := [Effect.signalAttempt processInfo.pid] }
      else
        { stopped := false, state := st, effects := [Effect.signalAttempt processInfo.pid] }
  | none => { stopped := false, state := st, effects := [] }

/-- Mount path of a project's router: `/preview/<name>` (server.js:360). -/
def previewBase (projectName : Str) : Str := "/preview/".toList ++ projectName

/-- Path prefix seen by the proxy middleware: `/preview/<name>/app`
(server.js:353, 356). -/
def previewAppBase (projectName : Str) : Str :=
  previewBase projectName ++ "/app".toList

/-- Model of the `pathRewrite` option of the proxy (server.js:356):
`path.replace('/preview/<name>/app', '')`. -/
def pathRewrite (projectName p : Str) : Str :=
  replaceFirst (previewAppBase projectName) [] p

/-- Response of an HTTP server, reduced to the fields the claims mention. -/
structure HttpResponse where
  statusCode : Nat
  body : Str
deriving DecidableEq

/-- Modelled from the contract of `createProxyMiddleware`
(http-proxy-middleware, an external collaborator outside this repository):
the proxy forwards the request to the child server at the rewritten path and
relays the child's response unmodified.  The path rewriting itself is the
repository's own code (server.js:356). -/
def proxyForward (child : Str → HttpResponse) (projectName p : Str) : HttpResponse :=
  child (pathRewrite projectName p)

/-- Model of `findAvailablePort` (server.js:143-155).  `bindable p` abstracts
whether the transient `net` listener can bind port `p`; on success the
listener is closed and the bound port returned, on bind error the function
recurses with `startPort + 1`.  The source recursion is unbounded, so the
model carries a fuel bound on the number of probes and returns `none` when
it is exhausted. -/
def findAvailablePort (bindable : Nat → Bool) (startPort : Nat) : Nat → Option Nat
  | 0 => none
  | fuel + 1 =>
      if bindable startPort then some startPort
      else findAvailablePort bindable (startPort + 1) fuel

/-- Environment of one `/run` request: outcomes of the external checks and
collaborators (project directory existence, `flutter --version`, kill
outcomes, the port the allocator returns, the spawned child's pid, the fresh
router handle, `Date.now()`). -/
structure RunEnv where
  projectExists : Bool
  flutterInstalled : Bool
  killOk : Nat → Bool
  freePort : Nat
  newPid : Nat
  newRouterId : Nat
  now : Nat

/-- Response category of the `/run` handler (server.js:297-435). -/
inductive RunResult where
  | badRequest
  | notFound
  | toolchainUnavailable
  | success (port : Nat)
deriving DecidableEq

/-- Result of the `/run` handler: response, state afterwards, effects. -/
structure RunOutcome where
  result : RunResult
  state : ServerState
  effects : List Effect
deriving DecidableEq

/-- Registry entry created by the `/run` handler (server.js:369-376). -/
def newInfo (env : RunEnv) : ProcessInfo :=
  { pid := env.newPid, port := env.freePort, router := env.newRouterId
    lastPing := env.now, startTime := env.now
    status := Status.starting, error := none }

/-- State after the successful part of `/run` (server.js:316-376): stop any
prior instance of the name, mount a fresh router at `/preview/<name>`, spawn
the child, and record the new entry with status `starting`. -/
def runSuccessState (env : RunEnv) (projectName : Str) (st : ServerState) : ServerState :=
  { runningProjects :=
      mapSet (stopProject env.killOk projectName st).state.runningProjects
        projectName (newInfo env)
    routerStack :=
      (stopProject env.killOk projectName st).state.routerStack
        ++ [(previewBase projectName, env.newRouterId)] }

/-- Model of the `/run` handler (server.js:297-435): reject an empty name
(400), an unknown project directory (404), a missing Flutter toolchain
(500), all before touching any state; otherwise stop the prior instance,
allocate a port, mount the router, spawn the child and register the new
entry, answering success. -/
def runHandler (env : RunEnv) (name : Str) (st : ServerState) : RunOutcome :=
  if (trim name).isEmpty then
    { result := RunResult.badRequest, state := st, effects := [] }
  else if !env.projectExists then
    { result := RunResult.notFound, state := st, effects := [] }
  else if !env.flutterInstalled then
    { result := RunResult.toolchainUnavailable, state := st, effects := [] }
  else
    { result := RunResult.success env.freePort
      state := runSuccessState env (trim name) st
      effects := (stopProject env.killOk (trim name) st).effects
        ++ [Effect.portAllocated env.freePort, Effect.spawned env.newPid] }

/-- Model of `pingHandler` (server.js:340-347): if the name is registered,
refresh `lastPing` to the current time and answer 200, else answer 404. -/
def pingHandler (projectName : Str) (now : Nat) (st : ServerState) : Nat × ServerState :=
  match mapGet st.runningProjects projectName with
  | some info =>
      (200, { st with
                runningProjects := mapSet st.runningProjects projectName
                  ({ info with lastPing := now }) })
  | none => (404, st)

/-- Fixed staleness threshold of the reaper, milliseconds (server.js:650). -/
def staleThresholdMs : Nat := 60000

/-- Fixed sweep interval of the reaper, milliseconds (server.js:655). -/
def sweepIntervalMs : Nat := 30000

/-- Time of the k-th reaper sweep when the first sweep fires at `t0`:
`setInterval` fires every `sweepIntervalMs` milliseconds. -/
def sweepTime (t0 k : Nat) : Nat := t0 + sweepIntervalMs * k

/-- Iteration of the reaper over the snapshot of registry entries.  The
source iterates the live `Map` (server.js:649); since the body only ever
deletes the entry currently visited, this equals folding over the entries
present when the sweep starts. -/
def sweepAux (killOk : Nat → Bool) (now : Nat) :
    List (Str × ProcessInfo) → ServerState → ServerState
  | [], st => st
  | (projectName, info) :: rest, st =>
      sweepAux killOk now rest
        (if now - info.lastPing > staleThresholdMs
         then (stopProject killOk projectName st).state else st)

/-- Model of one reaper sweep (server.js:647-655): stop every project whose
`lastPing` is more than the staleness threshold before `now`. -/
def sweep (killOk : Nat → Bool) (now : Nat) (st : ServerState) : ServerState :=
  sweepAux killOk now st.runningProjects st

/-- Fixed set of readiness markers matched against child stdout
(server.js:390-393). -/
def readinessMarkers : List Str :=
  ["Flutter run key commands".toList, "lib/main.dart".toList,
   "Web server started".toList, "Running on".toList]

/-- Whether a stdout chunk contains one of the readiness markers
(server.js:390-393). -/
def containsMarker (output : Str) : Bool :=
  readinessMarkers.any (fun m => containsSub m output)

/-- Model of the child stdout observer (server.js:387-400): if the chunk
contains a readiness marker and the name is still registered, set its status
to `running`; otherwise leave the state unchanged. -/
def onStdout (projectName output : Str) (st : ServerState) : ServerState :=
  if containsMarker output then
    match mapGet st.runningProjects projectName with
    | some info =>
        { st with
            runningProjects := mapSet st.runningProjects projectName
              ({ info with status := Status.running }) }
    | none => st
  else st

/-- Model of the child stderr observer (server.js:402-411): on any stderr
chunk, if the name is still registered, set its status to `error` and record
the text; the entry stays in the registry. -/
def onStderr (projectName errorOutput : Str) (st : ServerState) : ServerState :=
  match mapGet st.runningProjects projectName with
  | some info =>
      { st with
          runningProjects := mapSet st.runningProjects projectName
            ({ info with status := Status.error, error := some errorOutput }) }
  | none => st

/-- Model of the child `error` event observer (server.js:418-428): record the
failure on the registered entry, or fall back to the stop path. -/
def onSpawnError (killOk : Nat → Bool) (projectName msg : Str) (st : ServerState) : ServerState :=
  match mapGet st.runningProjects projectName with
  | some info =>
      { st with
          runningProjects := mapSet st.runningProjects projectName
            ({ info with status := Status.error, error := some msg }) }
  | none => (stopProject killOk projectName st).state

/-- Events that mutate the server state: the `/run` and `/stop` handlers, the
keepalive handler, a reaper sweep, and the child process stream/exit/error
observers. -/
inductive Event where
  | run (env : RunEnv) (name : Str)
  | stopRequest (killOk : Nat → Bool) (name : Str)
  | ping (name : Str) (time : Nat)
  | sweepAt (killOk : Nat → Bool) (time : Nat)
  | stdout (name output : Str)
  | stderr (name output : Str)
  | closed (killOk : Nat → Bool) (name : Str)
  | spawnErr (killOk : Nat → Bool) (name msg : Str)

/-- State transition of one event. -/
def step : Event → ServerState → ServerState
  | Event.run env n, st => (runHandler env n st).state
  | Event.stopRequest killOk n, st => (stopProject killOk n st).state
  | Event.ping n t, st => (pingHandler n t st).2
  | Event.sweepAt killOk t, st => sweep killOk t st
  | Event.stdout n out, st => onStdout n out st
  | Event.stderr n out, st => onStderr n out st
  | Event.closed killOk n, st => (stopProject killOk n st).state
  | Event.spawnErr killOk n msg, st => onSpawnError killOk n msg st

/-- Folding a whole event trace over the state. -/
def steps (events : List Event) (st : ServerState) : ServerState :=
  events.foldl (fun s e => step e s) st

/-- Initial state of the server: empty registry, no mounted project routers. -/
def initialState : ServerState := { runningProjects := [], routerStack := [] }

/-- Status of a name as stored in the registry, if registered. -/
def statusOf (st : ServerState) (name : Str) : Option Status :=
  (mapGet st.runningProjects name).map ProcessInfo.status

/-- The name is either unregistered or registered with status `starting`. -/
def startingIfRegistered (st : ServerState) (name : Str) : Prop :=
  statusOf st name = none ∨ statusOf st name = some Status.starting

/-- No layer of the stack carries the given router handle. -/
def noRouterLayerL (stack : List (Str × Nat)) (rid : Nat) : Prop :=
  ∀ layer ∈ stack, layer.2 ≠ rid

/-- Some layer of the stack is mounted at `/preview/<name>`; when false, a
request under that prefix falls through to the 404 handler
(server.js:627-644). -/
def routeFound (st : ServerState) (name : Str) : Prop :=
  ∃ layer ∈ st.routerStack, layer.1 = previewBase name

/-- Events that, for the given name, carry none of the signals the
supervisor reacts to: no readiness marker on its stdout, no stderr, no
process exit, no spawn error for this name. -/
def benignFor (name : Str) : Event → Prop
  | Event.stdout n out => n = name → containsMarker out = false
  | Event.stderr n _ => n ≠ name
  | Event.closed _ n => n ≠ name
  | Event.spawnErr _ n _ => n ≠ name
  | _ => True

/-- Concrete registry entry used to evaluate the theorems on closed inputs. -/
def demoInfo : ProcessInfo :=
  { pid := 7, port := 8080, router := 1, lastPing := 0, startTime := 0
    status := Status.starting, error := none }

/-- Concrete server state with the single instance `demo` registered and its
router mounted, used to evaluate the theorems on closed inputs. -/
def demoState : ServerState :=
  { runningProjects := [("demo".toList, demoInfo)]
    routerStack := [(previewBase ("demo".toList), 1)] }

/-- Concrete environment of a `/run` request used to evaluate the theorems on
closed inputs. -/
def demoEnv : RunEnv :=
  { projectExists := true, flutterInstalled := true, killOk := fun _ => true
    freePort := 8080, newPid := 41, newRouterId := 2, now := 1000 }

/-! Helper lemmas about the string model. -/

theorem strPre_append_self (l t : Str) : strPre l (l ++ t) = true := by
  induction l with
  | nil => simp [strPre]
  | cons c rest ih => simp [strPre, ih]

theorem replaceFirst_append (needle repl tail : Str) :
    replaceFirst needle repl (needle ++ tail) = repl ++ tail := by
  cases needle with
  | nil =>
      cases tail with
      | nil => simp [replaceFirst, strPre]
      | cons c rest => simp [replaceFirst, strPre]
  | cons c n =>
      have hpre : strPre (c :: n) (c :: (n ++ tail)) = true := by
        have := strPre_append_self (c :: n) tail
        simpa using this
      simp [replaceFirst, hpre, List.drop_left]

/-! Helper lemmas about the map model. -/

theorem mapGet_mapSet_self {α : Type} (m : List (Str × α)) (k : Str) (v : α) :
    mapGet (mapSet m k v) k = some v := by
  induction m with
  | nil => simp [mapGet, mapSet]
  | cons a rest ih =>
      obtain ⟨ak, av⟩ := a
      by_cases h : ak = k
      · simp [mapSet, h, mapGet]
      · simp [mapSet, h, mapGet, ih]

theorem mapGet_mapSet_of_ne {α : Type} (m : List (Str × α)) (k k' : Str) (v : α)
    (h : k ≠ k') : mapGet (mapSet m k v) k' = mapGet m k' := by
  induction m with
  | nil => simp [mapGet, mapSet, h]
  | cons a rest ih =>
      obtain ⟨ak, av⟩ := a
      by_cases hk : ak = k
      · subst hk
        simp [mapSet, mapGet, h]
      · simp [mapSet, hk, mapGet, ih]

theorem mapGet_mapDelete_self {α : Type} (m : List (Str × α)) (k : Str) :
    mapGet (mapDelete m k) k = none := by
  induction m with
  | nil => simp [mapGet, mapDelete]
  | cons a rest ih =>
      obtain ⟨ak, av⟩ := a
      by_cases h : ak = k
      · simp [mapDelete, h, ih]
      · simp [mapDelete, h, mapGet, ih]

theorem mapGet_mapDelete_of_ne {α : Type} (m : List (Str × α)) (k k' : Str)
    (h : k ≠ k') : mapGet (mapDelete m k) k' = mapGet m k' := by
  induction m with
  | nil => simp [mapDelete]
  | cons a rest ih =>
      obtain ⟨ak, av⟩ := a
      by_cases hk : ak = k
      · subst hk
        simp [mapDelete, mapGet, h, ih]
      · simp [mapDelete, hk, mapGet, ih]

theorem mapGet_eq_some_mem {α : Type} {m : List (Str × α)} {k : Str} {v : α}
    (h : mapGet m k = some v) : (k, v) ∈ m := by
  induction m with
  | nil => simp [mapGet] at h
  | cons a rest ih =>
      obtain ⟨ak, av⟩ := a
      by_cases hk : ak = k
      · subst hk
        simp [mapGet] at h
        simp [h]
      · simp [mapGet, hk] at h
        exact List.mem_cons_of_mem _ (ih h)

theorem mem_keys_mapSet {α : Type} {m : List (Str × α)} {k x : Str} {v : α}
    (h : x ∈ keys (mapSet m k v)) : x = k ∨ x ∈ keys m := by
  induction m with
  | nil =>
      simp only [mapSet, keys, List.map_cons, List.map_nil, List.mem_singleton] at h
      exact Or.inl h
  | cons a rest ih =>
      obtain ⟨ak, av⟩ := a
      by_cases hk : ak = k
      · rw [show mapSet ((ak, av) :: rest) k v = (k, v) :: rest by simp [mapSet, hk]] at h
        simp only [keys, List.map_cons, List.mem_cons] at h
        rcases h with h | h
        · exact Or.inl h
        · exact Or.inr (by simp only [keys, List.map_cons, List.mem_cons]; exact Or.inr h)
      · rw [show mapSet ((ak, av) :: rest) k v = (ak, av) :: mapSet rest k v by
            simp [mapSet, hk]] at h
        simp only [keys, List.map_cons, List.mem_cons] at h
        rcases h with h | h
        · exact Or.inr (by simp only [keys, List.map_cons, List.mem_cons]; exact Or.inl h)
        · rcases ih h with h' | h'
          · exact Or.inl h'
          · exact Or.inr (by simp only [keys, List.map_cons, List.mem_cons]; exact Or.inr h')

theorem mem_keys_mapDelete {α : Type} {m : List (Str × α)} {k x : Str}
    (h : x ∈ keys (mapDelete m k)) : x ∈ keys m := by
  induction m with
  | nil => simpa [mapDelete] using h
  | cons a rest ih =>
      obtain ⟨ak, av⟩ := a
      simp only [keys, List.map_cons, List.mem_cons]
      by_cases hk : ak = k
      · rw [show mapDelete ((ak, av) :: rest) k = mapDelete rest k by simp [mapDelete, hk]] at h
        exact Or.inr (ih h)
      · rw [show mapDelete ((ak, av) :: rest) k = (ak, av) :: mapDelete rest k by
            simp [mapDelete, hk]] at h
        simp only [keys, List.map_cons, List.mem_cons] at h
        rcases h with h | h
        · exact Or.inl h
        · exact Or.inr (ih h)

theorem nodupKeys_mapSet {α : Type} {m : List (Str × α)} (k : Str) (v : α)
    (h : NodupKeys m) : NodupKeys (mapSet m k v) := by
  induction m with
  | nil => simp [NodupKeys, mapSet, keys]
  | cons a rest ih =>
      obtain ⟨ak, av⟩ := a
      simp only [NodupKeys, keys, List.map_cons, List.nodup_cons] at h
      obtain ⟨hak, hrest⟩ := h
      by_cases hk : ak = k
      · rw [show mapSet ((ak, av) :: rest) k v = (k, v) :: rest by simp [mapSet, hk]]
        simp only [NodupKeys, keys, List.map_cons, List.nodup_cons]
        refine ⟨?_, hrest⟩
        rw [← hk]
        exact hak
      · rw [show mapSet ((ak, av) :: rest) k v = (ak, av) :: mapSet rest k v by
            simp [mapSet, hk]]
        simp only [NodupKeys, keys, List.map_cons, List.nodup_cons]
        refine ⟨fun hmem => ?_, ih hrest⟩
        rcases mem_keys_mapSet hmem with h' | h'
        · exact hk h'
        · exact hak h'

theorem nodupKeys_mapDelete {α : Type} {m : List (Str × α)} (k : Str)
    (h : NodupKeys m) : NodupKeys (mapDelete m k) := by
  induction m with
  | nil => simp [NodupKeys, mapDelete, keys]
  | cons a rest ih =>
      obtain ⟨ak, av⟩ := a
      simp only [NodupKeys, keys, List.map_cons, List.nodup_cons] at h
      obtain ⟨hak, hrest⟩ := h
      by_cases hk : ak = k
      · rw [show mapDelete ((ak, av) :: rest) k = mapDelete rest k by simp [mapDelete, hk]]
        exact ih hrest
      · rw [show mapDelete ((ak, av) :: rest) k = (ak, av) :: mapDelete rest k by
            simp [mapDelete, hk]]
        simp only [NodupKeys, keys, List.map_cons, List.nodup_cons]
        exact ⟨fun hmem => hak (mem_keys_mapDelete hmem), ih hrest⟩

theorem filterKey_eq_nil_of_not_mem {α : Type} {m : List (Str × α)} {k : Str}
    (h : k ∉ keys m) : m.filter (fun e => decide (e.1 = k)) = [] := by
  induction m with
  | nil => simp
  | cons a rest ih =>
      obtain ⟨ak, av⟩ := a
      simp only [keys, List.map_cons, List.mem_cons] at h
      have hak : ¬ (ak = k) := fun hh => h (Or.inl hh.symm)
      have hrest : k ∉ keys rest := fun hm => h (Or.inr hm)
      simp [List.filter_cons, hak, ih hrest]

theorem countKey_mapSet_self {α : Type} {m : List (Str × α)} (k : Str) (v : α)
    (h : NodupKeys m) : countKey (mapSet m k v) k = 1 := by
  induction m with
  | nil => simp [countKey, mapSet]
  | cons a rest ih =>
      obtain ⟨ak, av⟩ := a
      simp only [NodupKeys, keys, List.map_cons, List.nodup_cons] at h
      obtain ⟨hak, hrest⟩ := h
      by_cases hk : ak = k
      · rw [show mapSet ((ak, av) :: rest) k v = (k, v) :: rest by simp [mapSet, hk]]
        have hknotin : k ∉ keys rest := by
          rw [← hk]
          exact hak
        have hnil := filterKey_eq_nil_of_not_mem hknotin
        simp [countKey, List.filter_cons, hnil]
      · rw [show mapSet ((ak, av) :: rest) k v = (ak, av) :: mapSet rest k v by
            simp [mapSet, hk]]
        have := ih hrest
        simp only [countKey, List.filter_cons] at this ⊢
        simp [hk, this]

/-! Helper lemmas about the stop path. -/

theorem stop_get_of_ne (killOk : Nat → Bool) (n : Str) (st : ServerState) (name : Str)
    (h : n ≠ name) :
    mapGet (stopProject killOk n st).state.runningProjects name
      = mapGet st.runningProjects name := by
  cases hg : mapGet st.runningProjects n with
  | none => simp [stopProject, hg]
  | some info =>
      by_cases hk : killOk info.pid
      · simp [stopProject, hg, hk, mapGet_mapDelete_of_ne _ _ _ h]
      · simp [stopProject, hg, hk]

theorem stop_get_cases (killOk : Nat → Bool) (n : Str) (st : ServerState) (name : Str) :
    mapGet (stopProject killOk n st).state.runningProjects name
      = mapGet st.runningProjects name
    ∨ mapGet (stopProject killOk n st).state.runningProjects name = none := by
  by_cases h : n = name
  · subst h
    cases hg : mapGet st.runningProjects n with
    | none => left; simp [stopProject, hg]
    | some info =>
        by_cases hk : killOk info.pid
        · right; simp [stopProject, hg, hk, mapGet_mapDelete_self]
        · left; simp [stopProject, hg, hk]
  · left
    exact stop_get_of_ne killOk n st name h

theorem stop_get_none (killOk : Nat → Bool) (n : Str) (st : ServerState) (name : Str)
    (h : mapGet st.runningProjects name = none) :
    mapGet (stopProject killOk n st).state.runningProjects name = none := by
  rcases stop_get_cases killOk n st name with hc | hc
  · rw [hc, h]
  · exact hc

theorem stop_stack_sublist (killOk : Nat → Bool) (n : Str) (st : ServerState) :
    List.Sublist (stopProject killOk n st).state.routerStack st.routerStack := by
  cases hg : mapGet st.runningProjects n with
  | none => simp [stopProject, hg]
  | some info =>
      by_cases hk : killOk info.pid
      · simp only [stopProject, hg, if_pos hk]
        exact List.filter_sublist _
      · simp [stopProject, hg, hk]

theorem stop_nodup (killOk : Nat → Bool) (n : Str) (st : ServerState)
    (h : NodupKeys st.runningProjects) :
    NodupKeys (stopProject killOk n st).state.runningProjects := by
  cases hg : mapGet st.runningProjects n with
  | none => simpa [stopProject, hg] using h
  | some info =>
      by_cases hk : killOk info.pid
      · simp only [stopProject, hg, if_pos hk]
        exact nodupKeys_mapDelete _ h
      · simpa [stopProject, hg, hk] using h

theorem noRouterLayerL_of_sublist {s1 s2 : List (Str × Nat)} {rid : Nat}
    (hs : List.Sublist s1 s2) (h : noRouterLayerL s2 rid) : noRouterLayerL s1 rid :=
  fun layer hm => h layer (hs.subset hm)

theorem stop_noRouterLayerL (killOk : Nat → Bool) (n : Str) (st : ServerState) (rid : Nat)
    (h : noRouterLayerL st.routerStack rid) :
    noRouterLayerL (stopProject killOk n st).state.routerStack rid :=
  noRouterLayerL_of_sublist (stop_stack_sublist killOk n st) h

/-! Helper lemmas about the reaper sweep. -/

theorem sweepAux_preserves (killOk : Nat → Bool) (now : Nat) (name : Str) (rid : Nat)
    (l : List (Str × ProcessInfo)) :
    ∀ (st : ServerState),
      mapGet st.runningProjects name = none → noRouterLayerL st.routerStack rid →
      mapGet (sweepAux killOk now l st).runningProjects name = none
      ∧ noRouterLayerL (sweepAux killOk now l st).routerStack rid := by
  induction l with
  | nil =>
      intro st h1 h2
      exact ⟨h1, h2⟩
  | cons a rest ih =>
      obtain ⟨n, info⟩ := a
      intro st h1 h2
      simp only [sweepAux]
      by_cases hc : now - info.lastPing > staleThresholdMs
      · simp only [if_pos hc]
        exact ih _ (stop_get_none _ _ _ _ h1) (stop_noRouterLayerL _ _ _ _ h2)
      · simp only [if_neg hc]
        exact ih st h1 h2

theorem sweepAux_stack_sublist (killOk : Nat → Bool) (now : Nat)
    (l : List (Str × ProcessInfo)) :
    ∀ (st : ServerState),
      List.Sublist (sweepAux killOk now l st).routerStack st.routerStack := by
  induction l with
  | nil =>
      intro st
      exact List.Sublist.refl _
  | cons a rest ih =>
      obtain ⟨n, info⟩ := a
      intro st
      simp only [sweepAux]
      by_cases hc : now - info.lastPing > staleThresholdMs
      · simp only [if_pos hc]
        exact (ih _).trans (stop_stack_sublist _ _ _)
      · simp only [if_neg hc]
        exact ih st

theorem sweepAux_get_cases (killOk : Nat → Bool) (now : Nat) (name : Str)
    (l : List (Str × ProcessInfo)) :
    ∀ (st : ServerState),
      mapGet (sweepAux killOk now l st).runningProjects name
        = mapGet st.runningProjects name
      ∨ mapGet (sweepAux killOk now l st).runningProjects name = none := by
  induction l with
  | nil =>
      intro st
      left
      rfl
  | cons a rest ih =>
      obtain ⟨n, info⟩ := a
      intro st
      simp only [sweepAux]
      by_cases hc : now - info.lastPing > staleThresholdMs
      · simp only [if_pos hc]
        rcases ih ((stopProject killOk n st).state) with h | h
        · rcases stop_get_cases killOk n st name with h2 | h2
          · left
            rw [h, h2]
          · right
            rw [h, h2]
        · right
          exact h
      · simp only [if_neg hc]
        exact ih st

theorem sweepAux_nodup (killOk : Nat → Bool) (now : Nat)
    (l : List (Str × ProcessInfo)) :
    ∀ (st : ServerState), NodupKeys st.runningProjects →
      NodupKeys (sweepAux killOk now l st).runningProjects := by
  induction l with
  | nil =>
      intro st h
      exact h
  | cons a rest ih =>
      obtain ⟨n, info⟩ := a
      intro st h
      simp only [sweepAux]
      by_cases hc : now - info.lastPing > staleThresholdMs
      · simp only [if_pos hc]
        exact ih _ (stop_nodup _ _ _ h)
      · simp only [if_neg hc]
        exact ih st h

theorem sweepAux_removes (killOk : Nat → Bool) (now : Nat) (name : Str)
    (info : ProcessInfo) (hkill : killOk info.pid = true)
    (hstale : now - info.lastPing > staleThresholdMs)
    (l : List (Str × ProcessInfo)) :
    ∀ (st : ServerState), (keys l).Nodup → (name, info) ∈ l →
      mapGet st.runningProjects name = some info →
      mapGet (sweepAux killOk now l st).runningProjects name = none
      ∧ noRouterLayerL (sweepAux killOk now l st).routerStack info.router := by
  induction l with
  | nil =>
      intro st _ hmem _
      exact absurd hmem (List.not_mem_nil _)
  | cons a rest ih =>
      obtain ⟨n, i⟩ := a
      intro st hnd hmem hreg
      simp only [keys, List.map_cons, List.nodup_cons] at hnd
      by_cases hn : n = name
      · have hi : i = info := by
          rcases List.mem_cons.mp hmem with heq | htail
          · have h1 := congrArg Prod.snd heq
            exact h1.symm
          · exfalso
            apply hnd.1
            rw [hn]
            exact List.mem_map_of_mem Prod.fst htail
        have hcond : now - i.lastPing > staleThresholdMs := by
          rw [hi]
          exact hstale
        simp only [sweepAux, if_pos hcond]
        have hstop : (stopProject killOk n st).state =
            { runningProjects := mapDelete st.runningProjects n
              routerStack := st.routerStack.filter
                (fun layer => decide (layer.2 ≠ info.router)) } := by
          rw [hn]
          simp [stopProject, hreg, hkill]
        rw [hstop]
        apply sweepAux_preserves
        · show mapGet (mapDelete st.runningProjects n) name = none
          rw [hn]
          exact mapGet_mapDelete_self _ _
        · show noRouterLayerL
            (st.routerStack.filter (fun layer => decide (layer.2 ≠ info.router))) info.router
          intro layer hm
          exact of_decide_eq_true (List.mem_filter.mp hm).2
      · have hmem' : (name, info) ∈ rest := by
          rcases List.mem_cons.mp hmem with heq | htail
          · exfalso
            apply hn
            have h1 := congrArg Prod.fst heq
            exact h1.symm
          · exact htail
        simp only [sweepAux]
        by_cases hc : now - i.lastPing > staleThresholdMs
        · simp only [if_pos hc]
          refine ih _ hnd.2 hmem' ?_
          rw [stop_get_of_ne _ _ _ _ hn]
          exact hreg
        · simp only [if_neg hc]
          exact ih st hnd.2 hmem' hreg

/-! Helper lemmas about the run, ping and stream-observer paths. -/

theorem runHandler_get_cases (env : RunEnv) (n : Str) (st : ServerState) (name : Str) :
    mapGet (runHandler env n st).state.runningProjects name
      = mapGet st.runningProjects name
    ∨ mapGet (runHandler env n st).state.runningProjects name = some (newInfo env) := by
  cases h1 : (trim n).isEmpty with
  | true => left; simp [runHandler, h1]
  | false =>
      cases h2 : env.projectExists with
      | false => left; simp [runHandler, h1, h2]
      | true =>
          cases h3 : env.flutterInstalled with
          | false => left; simp [runHandler, h1, h2, h3]
          | true =>
              simp only [runHandler, h1, h2, h3, Bool.not_true, Bool.false_eq_true,
                if_false, Bool.true_eq_false]
              by_cases h4 : trim n = name
              · right
                show mapGet (runSuccessState env (trim n) st).runningProjects name
                  = some (newInfo env)
                rw [show (runSuccessState env (trim n) st).runningProjects
                    = mapSet (stopProject env.killOk (trim n) st).state.runningProjects
                        (trim n) (newInfo env) from rfl]
                rw [h4]
                exact mapGet_mapSet_self _ _ _
              · left
                show mapGet (runSuccessState env (trim n) st).runningProjects name
                  = mapGet st.runningProjects name
                rw [show (runSuccessState env (trim n) st).runningProjects
                    = mapSet (stopProject env.killOk (trim n) st).state.runningProjects
                        (trim n) (newInfo env) from rfl]
                rw [mapGet_mapSet_of_ne _ _ _ _ h4]
                exact stop_get_of_ne _ _ _ _ h4

theorem runHandler_nodup (env : RunEnv) (n : Str) (st : ServerState)
    (h : NodupKeys st.runningProjects) :
    NodupKeys (runHandler env n st).state.runningProjects := by
  cases h1 : (trim n).isEmpty with
  | true => simpa [runHandler, h1] using h
  | false =>
      cases h2 : env.projectExists with
      | false => simpa [runHandler, h1, h2] using h
      | true =>
          cases h3 : env.flutterInstalled with
          | false => simpa [runHandler, h1, h2, h3] using h
          | true =>
              simp only [runHandler, h1, h2, h3, Bool.not_true, Bool.false_eq_true,
                if_false, Bool.true_eq_false]
              exact nodupKeys_mapSet _ _ (stop_nodup _ _ _ h)

theorem ping_statusOf (n : Str) (t : Nat) (st : ServerState) (name : Str) :
    statusOf (pingHandler n t st).2 name = statusOf st name := by
  cases hg : mapGet st.runningProjects n with
  | none => simp [pingHandler, hg]
  | some i =>
      by_cases hn : n = name
      · subst hn
        simp [pingHandler, hg, statusOf, mapGet_mapSet_self]
      · simp [pingHandler, hg, statusOf, mapGet_mapSet_of_ne _ _ _ _ hn]

theorem ping_nodup (n : Str) (t : Nat) (st : ServerState)
    (h : NodupKeys st.runningProjects) :
    NodupKeys (pingHandler n t st).2.runningProjects := by
  cases hg : mapGet st.runningProjects n with
  | none => simpa [pingHandler, hg] using h
  | some i =>
      simp only [pingHandler, hg]
      exact nodupKeys_mapSet _ _ h

theorem onStdout_nodup (n out : Str) (st : ServerState)
    (h : NodupKeys st.runningProjects) :
    NodupKeys (onStdout n out st).runningProjects := by
  cases hm : containsMarker out with
  | false => simpa [onStdout, hm] using h
  | true =>
      cases hg : mapGet st.runningProjects n with
      | none => simpa [onStdout, hm, hg] using h
      | some i =>
          simp only [onStdout, hm, hg, if_true]
          exact nodupKeys_mapSet _ _ h

theorem onStderr_nodup (n out : Str) (st : ServerState)
    (h : NodupKeys st.runningProjects) :
    NodupKeys (onStderr n out st).runningProjects := by
  cases hg : mapGet st.runningProjects n with
  | none => simpa [onStderr, hg] using h
  | some i =>
      simp only [onStderr, hg]
      exact nodupKeys_mapSet _ _ h

theorem onSpawnError_nodup (killOk : Nat → Bool) (n msg : Str) (st : ServerState)
    (h : NodupKeys st.runningProjects) :
    NodupKeys (onSpawnError killOk n msg st).runningProjects := by
  cases hg : mapGet st.runningProjects n with
  | none =>
      simp only [onSpawnError, hg]
      exact stop_nodup _ _ _ h
  | some i =>
      simp only [onSpawnError, hg]
      exact nodupKeys_mapSet _ _ h

theorem step_nodup (e : Event) (st : ServerState) (h : NodupKeys st.runningProjects) :
    NodupKeys ((step e st).runningProjects) := by
  cases e with
  | run env n => exact runHandler_nodup env n st h
  | stopRequest killOk n => exact stop_nodup killOk n st h
  | ping n t => exact ping_nodup n t st h
  | sweepAt killOk t => exact sweepAux_nodup killOk t st.runningProjects st h
  | stdout n out => exact onStdout_nodup n out st h
  | stderr n out => exact onStderr_nodup n out st h
  | closed killOk n => exact stop_nodup killOk n st h
  | spawnErr killOk n msg => exact onSpawnError_nodup killOk n msg st h

theorem steps_nodup (events : List Event) :
    ∀ (st : ServerState), NodupKeys st.runningProjects →
      NodupKeys ((steps events st).runningProjects) := by
  induction events with
  | nil =>
      intro st h
      exact h
  | cons e rest ih =>
      intro st h
      simp only [steps, List.foldl_cons]
      exact ih (step e st) (step_nodup e st h)

/-! Helper lemmas for preservation of the `starting` status. -/

theorem statusOf_eq_of_get_eq {st st' : ServerState} {name : Str}
    (h : mapGet st'.runningProjects name = mapGet st.runningProjects name) :
    statusOf st' name = statusOf st name := by
  simp [statusOf, h]

theorem startingIfRegistered_of_get_eq {st st' : ServerState} {name : Str}
    (h : mapGet st'.runningProjects name = mapGet st.runningProjects name)
    (hp : startingIfRegistered st name) : startingIfRegistered st' name := by
  unfold startingIfRegistered at hp ⊢
  rw [statusOf_eq_of_get_eq h]
  exact hp

theorem startingIfRegistered_of_none {st : ServerState} {name : Str}
    (h : mapGet st.runningProjects name = none) : startingIfRegistered st name := by
  left
  simp [statusOf, h]

theorem step_preserves_starting (name : Str) (e : Event) (st : ServerState)
    (hb : benignFor name e) (h : startingIfRegistered st name) :
    startingIfRegistered (step e st) name := by
  cases e with
  | run env n =>
      show startingIfRegistered (runHandler env n st).state name
      rcases runHandler_get_cases env n st name with hc | hc
      · exact startingIfRegistered_of_get_eq hc h
      · right
        simp [statusOf, hc, newInfo]
  | stopRequest killOk n =>
      show startingIfRegistered (stopProject killOk n st).state name
      rcases stop_get_cases killOk n st name with hc | hc
      · exact startingIfRegistered_of_get_eq hc h
      · exact startingIfRegistered_of_none hc
  | ping n t =>
      show startingIfRegistered (pingHandler n t st).2 name
      unfold startingIfRegistered at h ⊢
      rw [ping_statusOf]
      exact h
  | sweepAt killOk t =>
      show startingIfRegistered (sweep killOk t st) name
      rcases sweepAux_get_cases killOk t name st.runningProjects st with hc | hc
      · exact startingIfRegistered_of_get_eq hc h
      · exact startingIfRegistered_of_none hc
  | stdout n out =>
      show startingIfRegistered (onStdout n out st) name
      cases hm : containsMarker out with
      | false => exact startingIfRegistered_of_get_eq (by simp [onStdout, hm]) h
      | true =>
          have hn : n ≠ name := by
            intro he
            rw [hb he] at hm
            exact Bool.false_ne_true hm
          cases hg : mapGet st.runningProjects n with
          | none => exact startingIfRegistered_of_get_eq (by simp [onStdout, hm, hg]) h
          | some i =>
              refine startingIfRegistered_of_get_eq ?_ h
              simp only [onStdout, hm, hg, if_true]
              exact mapGet_mapSet_of_ne _ _ _ _ hn
  | stderr n out =>
      show startingIfRegistered (onStderr n out st) name
      cases hg : mapGet st.runningProjects n with
      | none => exact startingIfRegistered_of_get_eq (by simp [onStderr, hg]) h
      | some i =>
          refine startingIfRegistered_of_get_eq ?_ h
          simp only [onStderr, hg]
          exact mapGet_mapSet_of_ne _ _ _ _ hb
  | closed killOk n =>
      show startingIfRegistered (stopProject killOk n st).state name
      rcases stop_get_cases killOk n st name with hc | hc
      · exact startingIfRegistered_of_get_eq hc h
      · exact startingIfRegistered_of_none hc
  | spawnErr killOk n msg =>
      show startingIfRegistered (onSpawnError killOk n msg st) name
      cases hg : mapGet st.runningProjects n with
      | none =>
          refine startingIfRegistered_of_get_eq ?_ h
          simp only [onSpawnError, hg]
          exact stop_get_of_ne _ _ _ _ hb
      | some i =>
          refine startingIfRegistered_of_get_eq ?_ h
          simp only [onSpawnError, hg]
          exact mapGet_mapSet_of_ne _ _ _ _ hb

theorem steps_preserves_starting (name : Str) (events : List Event) :
    ∀ (st : ServerState), startingIfRegistered st name →
      (∀ e ∈ events, benignFor name e) →
      startingIfRegistered (steps events st) name := by
  induction events with
  | nil =>
      intro st h _
      exact h
  | cons e rest ih =>
      intro st h hb
      simp only [steps, List.foldl_cons]
      refine ih (step e st) ?_ (fun e' he' => hb e' (List.mem_cons_of_mem _ he'))
      exact step_preserves_starting name e st (hb e (List.mem_cons_self _ _)) h

/-! Claim theorems. -/

/-- C1 counterexample: with the instance `demo` registered and a termination
signal that fails (`process.kill` throws because the process is already
gone), `stop` returns `false` and `demo` is still present in the Registry
with its router still mounted: the claim that the name is always absent
afterwards is false on the code, because `runningProjects.delete` and the
router-stack filter are only reached when the kill does not throw
(server.js:160-169). -/
theorem stop_signal_failure_keeps_entry :
    (stopProject (fun _ => false) ("demo".toList) demoState).stopped = false
    ∧ mapGet (stopProject (fun _ => false) ("demo".toList) demoState).state.runningProjects
        ("demo".toList) = some demoInfo
    ∧ (stopProject (fun _ => false) ("demo".toList) demoState).state.routerStack
        = [(previewBase ("demo".toList), 1)] := by
  refine ⟨rfl, rfl, rfl⟩

/-- C1 (amended): `stop` on a registered name never raises, whatever the
signal outcome.  If the termination signal succeeds, it unmounts the
instance's routes, removes the Registry entry and returns `true`; if the
signal fails, it logs and returns `false`, and the Registry entry and the
routes remain (the removal statements are only reached after a successful
kill). -/
theorem stop_amended_signal_outcome (killOk : Nat → Bool) (name : Str)
    (st : ServerState) (info : ProcessInfo)
    (hreg : mapGet st.runningProjects name = some info) :
    (killOk info.pid = true →
        stopProject killOk name st =
          { stopped := true
            state := { runningProjects := mapDelete st.runningProjects name
                       routerStack := st.routerStack.filter
                         (fun layer => decide (layer.2 ≠ info.router)) }
            effects := [Effect.signalAttempt info.pid] }
        ∧ mapGet (stopProject killOk name st).state.runningProjects name = none)
    ∧ (killOk info.pid = false →
        stopProject killOk name st =
          { stopped := false, state := st
            effects := [Effect.signalAttempt info.pid] }) := by
  constructor
  · intro hk
    constructor
    · simp [stopProject, hreg, hk]
    · simp [stopProject, hreg, hk, mapGet_mapDelete_self]
  · intro hk
    simp [stopProject, hreg, hk]

/-- Witness for the amended C1 theorem: a concrete registered state with a
succeeding signal, for which the entry is removed. -/
theorem stop_amended_signal_outcome_witness :
    mapGet demoState.runningProjects ("demo".toList) = some demoInfo
    ∧ (fun _ : Nat => true) demoInfo.pid = true
    ∧ mapGet (stopProject (fun _ => true) ("demo".toList) demoState).state.runningProjects
        ("demo".toList) = none :=
  ⟨rfl, rfl,
    ((stop_amended_signal_outcome (fun _ => true) ("demo".toList) demoState demoInfo rfl).1
      rfl).2⟩

/-- C2: a request whose path has the form `/preview/<name>/app/<rest>` is
forwarded to the child server with the instance prefix and the `/app`
segment stripped, i.e. at path `/<rest>`, and the proxy relays the child's
response status code and body unmodified (server.js:353-357). -/
theorem proxy_path_rewrite_relays (projectName rest : Str)
    (child : Str → HttpResponse) :
    pathRewrite projectName (previewAppBase projectName ++ ('/' :: rest)) = '/' :: rest
    ∧ proxyForward child projectName (previewAppBase projectName ++ ('/' :: rest))
        = child ('/' :: rest) := by
  have h : pathRewrite projectName (previewAppBase projectName ++ ('/' :: rest))
      = '/' :: rest := by
    unfold pathRewrite
    have h2 := replaceFirst_append (previewAppBase projectName) [] ('/' :: rest)
    simpa using h2
  exact ⟨h, by simp [proxyForward, h]⟩

/-- C3 counterexample: at a sweep at time 100000 ms the instance `demo`
(lastPing 0) is past the staleness threshold, but its termination signal
fails; the sweep leaves `demo` in the Registry, so the claim that every
stale registered instance is removed at the sweep is false on the code. -/
theorem reaper_signal_failure_keeps_entry :
    100000 - demoInfo.lastPing > staleThresholdMs
    ∧ mapGet (sweep (fun _ => false) 100000 demoState).runningProjects ("demo".toList)
        = some demoInfo := by
  refine ⟨by decide, rfl⟩

/-- C3 (amended): at every reaper sweep, every registered instance whose
`lastPing` is more than the 60 s staleness threshold before the sweep time
and whose termination signal succeeds is stopped at that sweep: it is
removed from the Registry, subsequent keepalive requests for it answer 404,
and no route of its mount prefix remains (its mounted layers carrying its
router handle).  Moreover, with sweeps every 30 s from any first-sweep time
at or before the moment the threshold elapses, some sweep time falls within
one sweep interval after that moment and the staleness test holds there, so
the instance is stopped at most one sweep interval after the threshold
elapses. -/
theorem reaper_removes_stale_amended (killOk : Nat → Bool) (now : Nat)
    (st : ServerState) (name : Str) (info : ProcessInfo)
    (hnodup : NodupKeys st.runningProjects)
    (hreg : mapGet st.runningProjects name = some info)
    (hstale : now - info.lastPing > staleThresholdMs)
    (hkill : killOk info.pid = true)
    (hwf : ∀ layer ∈ st.routerStack, layer.1 = previewBase name → layer.2 = info.router) :
    mapGet (sweep killOk now st).runningProjects name = none
    ∧ (∀ t, (pingHandler name t (sweep killOk now st)).1 = 404)
    ∧ ¬ routeFound (sweep killOk now st) name
    ∧ (∀ t0, t0 ≤ info.lastPing + staleThresholdMs →
        ∃ k, info.lastPing + staleThresholdMs < sweepTime t0 k
          ∧ sweepTime t0 k ≤ info.lastPing + staleThresholdMs + sweepIntervalMs
          ∧ sweepTime t0 k - info.lastPing > staleThresholdMs) := by
  have hmain := sweepAux_removes killOk now name info hkill hstale st.runningProjects st
    hnodup (mapGet_eq_some_mem hreg) hreg
  have hnone : mapGet (sweep killOk now st).runningProjects name = none := hmain.1
  refine ⟨hnone, ?_, ?_, ?_⟩
  · intro t
    simp [pingHandler, hnone]
  · intro hrf
    obtain ⟨layer, hmem, hpre⟩ := hrf
    have hsub := sweepAux_stack_sublist killOk now st.runningProjects st
    have hmem0 : layer ∈ st.routerStack := hsub.subset hmem
    have hr : layer.2 = info.router := hwf layer hmem0 hpre
    exact hmain.2 layer hmem hr
  · intro t0 ht0
    simp only [staleThresholdMs] at ht0
    refine ⟨(info.lastPing + 60000 - t0) / 30000 + 1, ?_, ?_, ?_⟩ <;>
      simp only [sweepTime, staleThresholdMs, sweepIntervalMs] <;> omega

/-- Witness for the amended C3 theorem: a concrete stale instance with a
succeeding signal, removed by a sweep at time 70000 ms. -/
theorem reaper_removes_stale_amended_witness :
    NodupKeys demoState.runningProjects
    ∧ mapGet demoState.runningProjects ("demo".toList) = some demoInfo
    ∧ 70000 - demoInfo.lastPing > staleThresholdMs
    ∧ (fun _ : Nat => true) demoInfo.pid = true
    ∧ (∀ layer ∈ demoState.routerStack,
        layer.1 = previewBase ("demo".toList) → layer.2 = demoInfo.router)
    ∧ mapGet (sweep (fun _ => true) 70000 demoState).runningProjects ("demo".toList)
        = none :=
  ⟨by unfold NodupKeys; decide, rfl, by decide, rfl, by decide,
    (reaper_removes_stale_amended (fun _ => true) 70000 demoState ("demo".toList) demoInfo
      (by unfold NodupKeys; decide) rfl (by decide) rfl (by decide)).1⟩

/-- C4: whenever the `/run` handler's pre-checks pass, it returns success and
immediately afterwards the Registry holds exactly one entry for the
(trimmed) name, whose status is `starting` (server.js:369-385).  Moreover
every event preserves uniqueness of names in the Registry (a JavaScript
`Map` holds at most one binding per key), so along any event trace from the
initial state at most one instance per name exists at any time. -/
theorem run_registers_unique_starting (env : RunEnv) (name : Str) (st : ServerState)
    (hname : (trim name).isEmpty = false)
    (hproj : env.projectExists = true)
    (hflut : env.flutterInstalled = true)
    (hnodup : NodupKeys st.runningProjects) :
    ((runHandler env name st).result = RunResult.success env.freePort
      ∧ mapGet (runHandler env name st).state.runningProjects (trim name)
          = some (newInfo env)
      ∧ (newInfo env).status = Status.starting
      ∧ countKey (runHandler env name st).state.runningProjects (trim name) = 1
      ∧ NodupKeys (runHandler env name st).state.runningProjects)
    ∧ (∀ (e : Event) (st0 : ServerState), NodupKeys st0.runningProjects →
        NodupKeys ((step e st0).runningProjects))
    ∧ (∀ (events : List Event), NodupKeys ((steps events initialState).runningProjects)) := by
  have hrun : runHandler env name st =
      { result := RunResult.success env.freePort
        state := runSuccessState env (trim name) st
        effects := (stopProject env.killOk (trim name) st).effects
          ++ [Effect.portAllocated env.freePort, Effect.spawned env.newPid] } := by
    simp [runHandler, hname, hproj, hflut]
  refine ⟨⟨?_, ?_, rfl, ?_, ?_⟩, fun e st0 h => step_nodup e st0 h,
    fun events => steps_nodup events initialState (by unfold NodupKeys; decide)⟩
  · rw [hrun]
  · rw [hrun]
    exact mapGet_mapSet_self _ _ _
  · rw [hrun]
    exact countKey_mapSet_self _ _ (stop_nodup _ _ _ hnodup)
  · rw [hrun]
    exact nodupKeys_mapSet _ _ (stop_nodup _ _ _ hnodup)

/-- Witness for C4: a concrete successful run from the empty state. -/
theorem run_registers_unique_starting_witness :
    (trim ("demo".toList)).isEmpty = false
    ∧ demoEnv.projectExists = true
    ∧ demoEnv.flutterInstalled = true
    ∧ NodupKeys initialState.runningProjects
    ∧ mapGet (runHandler demoEnv ("demo".toList) initialState).state.runningProjects
        (trim ("demo".toList)) = some (newInfo demoEnv)
    ∧ countKey (runHandler demoEnv ("demo".toList) initialState).state.runningProjects
        (trim ("demo".toList)) = 1 :=
  ⟨by decide, rfl, rfl, by unfold NodupKeys; decide,
    (run_registers_unique_starting demoEnv ("demo".toList) initialState (by decide) rfl rfl
      (by unfold NodupKeys; decide)).1.2.1,
    (run_registers_unique_starting demoEnv ("demo".toList) initialState (by decide) rfl rfl
      (by unfold NodupKeys; decide)).1.2.2.2.1⟩

/-- C5: when a `/run` request fails because the project directory does not
exist (404 NotFound) or the Flutter toolchain is unavailable (500), the
handler returns before any state mutation: the state (Registry and router
stack) is returned unchanged, and no effect is performed — no signal is sent
to a prior instance, no port is allocated, no child is spawned
(server.js:299-317). -/
theorem run_precheck_failures_pure (env : RunEnv) (name : Str) (st : ServerState)
    (hname : (trim name).isEmpty = false) :
    (env.projectExists = false →
        runHandler env name st =
          { result := RunResult.notFound, state := st, effects := [] })
    ∧ (env.projectExists = true → env.flutterInstalled = false →
        runHandler env name st =
          { result := RunResult.toolchainUnavailable, state := st, effects := [] }) := by
  constructor
  · intro h2
    simp [runHandler, hname, h2]
  · intro h2 h3
    simp [runHandler, hname, h2, h3]

/-- Witness for C5: both failure kinds at concrete inputs, each leaving the
state untouched with no effects. -/
theorem run_precheck_failures_pure_witness :
    (trim ("demo".toList)).isEmpty = false
    ∧ runHandler ({ demoEnv with projectExists := false }) ("demo".toList) demoState =
        { result := RunResult.notFound, state := demoState, effects := [] }
    ∧ runHandler ({ demoEnv with flutterInstalled := false }) ("demo".toList) demoState =
        { result := RunResult.toolchainUnavailable, state := demoState, effects := [] } :=
  ⟨by decide,
    (run_precheck_failures_pure ({ demoEnv with projectExists := false }) ("demo".toList)
      demoState (by decide)).1 rfl,
    (run_precheck_failures_pure ({ demoEnv with flutterInstalled := false }) ("demo".toList)
      demoState (by decide)).2 rfl rfl⟩

/-- C6: the allocator probes a bind on the start port, returns it on success,
and on bind failure recurses with the port incremented by one; hence it
returns the first bindable port greater than or equal to the start port,
given fuel for enough probes to reach it (server.js:143-155). -/
theorem findAvailablePort_returns_first_free (bindable : Nat → Bool) (p : Nat)
    (hbind : bindable p = true) (fuel : Nat) :
    ∀ (startPort : Nat), startPort ≤ p →
      (∀ q, startPort ≤ q → q < p → bindable q = false) →
      p < startPort + fuel →
      findAvailablePort bindable startPort fuel = some p := by
  induction fuel with
  | zero =>
      intro s hle _ hfuel
      omega
  | succ f ih =>
      intro s hle hmin hfuel
      cases hb : bindable s with
      | true =>
          have hsp : s = p := by
            by_contra hne
            have hf := hmin s le_rfl (lt_of_le_of_ne hle hne)
            rw [hf] at hb
            exact Bool.false_ne_true hb
          rw [hsp] at hb ⊢
          simp [findAvailablePort, hb]
      | false =>
          simp only [findAvailablePort, hb, Bool.false_eq_true, if_false]
          exact ih (s + 1) (by
            rcases Nat.lt_or_ge s p with hlt | hge
            · omega
            · exfalso
              have : s = p := le_antisymm hle hge
              rw [this, hbind] at hb
              exact Bool.false_ne_true hb.symm)
            (fun q h1 h2 => hmin q (by omega) h2) (by omega)

/-- Witness for C6: with ports below 8082 unbindable, probing from 8080
returns 8082. -/
theorem findAvailablePort_returns_first_free_witness :
    (fun q => decide (8082 ≤ q)) 8082 = true
    ∧ (8080 : Nat) ≤ 8082
    ∧ (∀ q, 8080 ≤ q → q < 8082 → (fun q => decide (8082 ≤ q)) q = false)
    ∧ (8082 : Nat) < 8080 + 5
    ∧ findAvailablePort (fun q => decide (8082 ≤ q)) 8080 5 = some 8082 := by
  refine ⟨by decide, by decide, ?_, by decide, ?_⟩
  · intro q h1 h2
    simp only [decide_eq_false_iff_not]
    omega
  · exact findAvailablePort_returns_first_free (fun q => decide (8082 ≤ q)) 8082 (by decide)
      5 8080 (by decide)
      (fun q h1 h2 => by simp only [decide_eq_false_iff_not]; omega) (by decide)

/-- C7: for a registered instance, a stdout chunk containing one of the fixed
readiness markers, and only such a chunk, transitions its status to
`running`; a chunk with no marker leaves the state unchanged
(server.js:387-400). -/
theorem stdout_marker_sets_running (name output : Str) (st : ServerState)
    (info : ProcessInfo)
    (hreg : mapGet st.runningProjects name = some info) :
    (containsMarker output = true →
        mapGet (onStdout name output st).runningProjects name
          = some ({ info with status := Status.running }))
    ∧ (containsMarker output = false → onStdout name output st = st) := by
  constructor
  · intro hm
    simp only [onStdout, hm, hreg, if_true]
    exact mapGet_mapSet_self _ _ _
  · intro hm
    simp [onStdout, hm]

/-- Witness for C7: a marker chunk flips the concrete `demo` entry to
`running`; a markerless chunk leaves the state untouched. -/
theorem stdout_marker_sets_running_witness :
    mapGet demoState.runningProjects ("demo".toList) = some demoInfo
    ∧ containsMarker ("Web server started at port 8080".toList) = true
    ∧ mapGet (onStdout ("demo".toList) ("Web server started at port 8080".toList)
        demoState).runningProjects ("demo".toList)
        = some ({ demoInfo with status := Status.running })
    ∧ containsMarker ("Compiling lib for the web...".toList) = false
    ∧ onStdout ("demo".toList) ("Compiling lib for the web...".toList) demoState
        = demoState :=
  ⟨rfl, by decide,
    (stdout_marker_sets_running ("demo".toList) ("Web server started at port 8080".toList)
      demoState demoInfo rfl).1 (by decide),
    by decide,
    (stdout_marker_sets_running ("demo".toList) ("Compiling lib for the web...".toList)
      demoState demoInfo rfl).2 (by decide)⟩

/-- C8: for a registered instance, any stderr chunk transitions its status to
`error` and records the text in its `error` field, while the entry remains
in the Registry (server.js:402-411). -/
theorem stderr_sets_error_keeps_registered (name txt : Str) (st : ServerState)
    (info : ProcessInfo)
    (hreg : mapGet st.runningProjects name = some info) :
    mapGet (onStderr name txt st).runningProjects name
      = some ({ info with status := Status.error, error := some txt }) := by
  simp only [onStderr, hreg]
  exact mapGet_mapSet_self _ _ _

/-- Witness for C8: a concrete stderr chunk on the `demo` entry. -/
theorem stderr_sets_error_keeps_registered_witness :
    mapGet demoState.runningProjects ("demo".toList) = some demoInfo
    ∧ mapGet (onStderr ("demo".toList) ("Error: build failed".toList)
        demoState).runningProjects ("demo".toList)
      = some ({ demoInfo with
                status := Status.error, error := some ("Error: build failed".toList) }) :=
  ⟨rfl,
    stderr_sets_error_keeps_registered ("demo".toList) ("Error: build failed".toList)
      demoState demoInfo rfl⟩

/-- C9: along any event trace in which, for the given name, no stdout chunk
contains a readiness marker, no stderr chunk arrives, the child does not
exit and no spawn error is reported, the name's status — whenever it is
registered — remains `starting`: no timeout or any other mechanism ever
transitions the status away from `starting` without matching output text
(server.js:387-428). -/
theorem starting_persists_without_output (events : List Event) (st : ServerState)
    (name : Str) (h0 : startingIfRegistered st name)
    (hb : ∀ e ∈ events, benignFor name e) :
    startingIfRegistered (steps events st) name :=
  steps_preserves_starting name events st h0 hb

/-- Witness for C9: a concrete trace of keepalives, a sweep and markerless
stdout leaves the concrete `demo` entry in status `starting`. -/
theorem starting_persists_without_output_witness :
    startingIfRegistered demoState ("demo".toList)
    ∧ (∀ e ∈ [Event.ping ("demo".toList) 5,
        Event.sweepAt (fun _ => true) 10,
        Event.stdout ("demo".toList) ("Waiting for connection from debug service".toList),
        Event.ping ("demo".toList) 20], benignFor ("demo".toList) e)
    ∧ startingIfRegistered
        (steps [Event.ping ("demo".toList) 5,
          Event.sweepAt (fun _ => true) 10,
          Event.stdout ("demo".toList) ("Waiting for connection from debug service".toList),
          Event.ping ("demo".toList) 20] demoState) ("demo".toList) := by
  have hb : ∀ e ∈ [Event.ping ("demo".toList) 5,
      Event.sweepAt (fun _ => true) 10,
      Event.stdout ("demo".toList) ("Waiting for connection from debug service".toList),
      Event.ping ("demo".toList) 20], benignFor ("demo".toList) e := by
    intro e he
    cases he with
    | head => exact trivial
    | tail _ h2 =>
        cases h2 with
        | head => exact trivial
        | tail _ h3 =>
            cases h3 with
            | head =>
                intro _
                decide
            | tail _ h4 =>
                cases h4 with
                | head => exact trivial
                | tail _ h5 => cases h5
  have h0 : startingIfRegistered demoState ("demo".toList) := by
    unfold startingIfRegistered
    decide
  exact ⟨h0, hb,
    starting_persists_without_output
      [Event.ping ("demo".toList) 5,
        Event.sweepAt (fun _ => true) 10,
        Event.stdout ("demo".toList) ("Waiting for connection from debug service".toList),
        Event.ping ("demo".toList) 20] demoState ("demo".toList) h0 hb⟩

/-- C10: the `error` status is not sticky: on a registered instance, after a
stderr chunk sets status `error` and records its text, a later stdout chunk
containing a readiness marker sets the status back to `running` while the
recorded error text remains in the `error` field — the stdout observer
touches only `status` (server.js:387-411). -/
theorem error_status_not_sticky (name errTxt output : Str) (st : ServerState)
    (info : ProcessInfo)
    (hreg : mapGet st.runningProjects name = some info)
    (hmark : containsMarker output = true) :
    mapGet (onStdout name output (onStderr name errTxt st)).runningProjects name
      = some ({ info with status := Status.running, error := some errTxt }) := by
  have h1 : mapGet (onStderr name errTxt st).runningProjects name
      = some ({ info with status := Status.error, error := some errTxt }) := by
    simp only [onStderr, hreg]
    exact mapGet_mapSet_self _ _ _
  simp only [onStdout, hmark, h1, if_true]
  exact mapGet_mapSet_self _ _ _

/-- Witness for C10: on the concrete `demo` entry, stderr then a marker
chunk ends with status `running` and the stderr text still recorded. -/
theorem error_status_not_sticky_witness :
    mapGet demoState.runningProjects ("demo".toList) = some demoInfo
    ∧ containsMarker ("Running on http://localhost:8080".toList) = true
    ∧ mapGet (onStdout ("demo".toList) ("Running on http://localhost:8080".toList)
        (onStderr ("demo".toList) ("boom".toList) demoState)).runningProjects
        ("demo".toList)
      = some ({ demoInfo with status := Status.running, error := some ("boom".toList) }) :=
  ⟨rfl, by decide,
    error_status_not_sticky ("demo".toList) ("boom".toList)
      ("Running on http://localhost:8080".toList) demoState demoInfo rfl (by decide)⟩
